import Mathlib

/-!
Shallow embedding of the packet filter policy engine of
`relayer/src/config/filter.rs` (ibc-rs relayer).

Strings are modelled as `List Char`.  The operations of the `regex` crate
that the source leans on (`regex::escape`, `str::replace`, compilation of
the regex sources produced by `Wildcard::from_str`, and `Regex::is_match`)
are embedded explicitly below.  The regex sources reachable from
`Wildcard::from_str` form a small fragment: plain non-meta characters,
backslash-escaped meta characters, and `(?:.*)` groups; the embedded
compiler covers exactly that fragment.
-/

namespace PacketFilterSpec

/-- The character set escaped by `regex::escape`
(`regex_syntax::is_meta_character`). -/
def isMetaCharacter (c : Char) : Bool :=
  c == '\\' || c == '.' || c == '+' || c == '*' || c == '?' || c == '(' ||
  c == ')' || c == '|' || c == '[' || c == ']' || c == '\x7b' || c == '\x7d' ||
  c == '^' || c == '$' || c == '#' || c == '&' || c == '-' || c == '~'

/-- `regex::escape`: prefix every meta character with a backslash. -/
def rustRegexEscape : List Char → List Char
  | [] => []
  | c :: cs => (if isMetaCharacter c then ['\\', c] else [c]) ++ rustRegexEscape cs

/-- Fuel-indexed model of Rust `str::replace` for a non-empty pattern:
replace the non-overlapping occurrences of `pat` left to right.  Each step
consumes at least one input character, so the fuel chosen by `replaceList`
(the input length) is always sufficient and the `0`-fuel arm is dead. -/
def replaceFromF (pat rep : List Char) : Nat → List Char → List Char
  | 0, l => l
  | _ + 1, [] => []
  | f + 1, c :: cs =>
    if pat.isPrefixOf (c :: cs) then
      rep ++ replaceFromF pat rep f (List.drop (pat.length - 1) cs)
    else
      c :: replaceFromF pat rep f cs

/-- Rust `str::replace` (non-empty pattern). -/
def replaceList (pat rep l : List Char) : List Char :=
  replaceFromF pat rep l.length l

/-- One compiled regex element of the fragment produced by
`Wildcard::from_str`: a literal character, or the group `(?:.*)`
(any sequence of non-newline characters). -/
inductive GTok where
  | lit : Char → GTok
  | star : GTok
deriving DecidableEq

/-- Regex compilation, restricted to the sources `Wildcard::from_str` can
produce: sequences of plain non-meta characters, backslash-escaped meta
characters, and `(?:.*)` groups.  Anything outside the fragment is
(conservatively) a compilation failure; such sources never arise from
`Wildcard::from_str`. -/
def parseRegex : List Char → Option (List GTok)
  | [] => some []
  | c :: cs =>
    if c = '(' then
      match cs with
      | '?' :: ':' :: '.' :: '*' :: ')' :: rest => (parseRegex rest).map (GTok.star :: ·)
      | _ => none
    else if c = '\\' then
      match cs with
      | d :: rest =>
        if isMetaCharacter d then (parseRegex rest).map (GTok.lit d :: ·) else none
      | [] => none
    else if isMetaCharacter c then none
    else (parseRegex cs).map (GTok.lit c :: ·)

/-- Fuel-indexed matcher: does the token sequence match some prefix of the
text?  `star` matches any (possibly empty) sequence of non-newline
characters, as the regex crate's default `.` does.  Every recursive call
decreases `ps.length + text.length`, so the fuel chosen by `matchHere` is
always sufficient and the `0`-fuel arm is dead. -/
def matchHereF : Nat → List GTok → List Char → Bool
  | 0, _, _ => false
  | _ + 1, [], _ => true
  | _ + 1, GTok.lit _ :: _, [] => false
  | f + 1, GTok.lit c :: ps, x :: xs => x == c && matchHereF f ps xs
  | f + 1, GTok.star :: ps, [] => matchHereF f ps []
  | f + 1, GTok.star :: ps, x :: xs =>
    matchHereF f ps (x :: xs) || (x != '\n' && matchHereF f (GTok.star :: ps) xs)

/-- The token sequence matches some prefix of the text. -/
def matchHere (ps : List GTok) (text : List Char) : Bool :=
  matchHereF (ps.length + text.length + 1) ps text

/-- `Wildcard(regex::Regex)`: the compiled token list together with the
regex source string (`regex::Regex` retains its source for `Display`). -/
structure Wildcard where
  src : List Char
  toks : List GTok
deriving DecidableEq

/-- The two-character string `\*` (Rust literal `"\\*"`). -/
def escapedStar : List Char := ['\\', '*']

/-- The six-character group `(?:.*)`. -/
def anyGroup : List Char := ['(', '?', ':', '.', '*', ')']

/-- `impl FromStr for Wildcard`:
`regex::escape(s).replace("\\*", "(?:.*)").parse()`. -/
def Wildcard.from_str (s : List Char) : Option Wildcard :=
  let src := replaceList escapedStar anyGroup (rustRegexEscape s)
  (parseRegex src).map (fun toks => { src := src, toks := toks })

/-- `Regex::is_match`: true iff the pattern matches anywhere in the text.
The regex built by `from_str` carries no anchors, so the search tries every
starting position. -/
def Wildcard.is_match (w : Wildcard) (text : List Char) : Bool :=
  text.tails.any (fun t => matchHere w.toks t)

/-- `impl fmt::Display for Wildcard`: print the regex source with
`(?:.*)` replaced by `*`. -/
def Wildcard.render (w : Wildcard) : List Char :=
  replaceList anyGroup ['*'] w.src

/-- The pattern string `ica*`. -/
def icaStarPat : List Char := ['i', 'c', 'a', '*']

/-- Modelled from the spec: `PortId` (from `ibc::core::ics24_host::identifier`)
is not among the sources; the spec treats it as a validated string-backed
value with value equality and a canonical string form. -/
structure PortId where
  chars : List Char
deriving DecidableEq

/-- `AsRef<str>` for `PortId`: the canonical string form. -/
def PortId.as_ref (p : PortId) : List Char := p.chars

/-- Modelled from the spec: `PortId::from_str` (identifier validation,
`ics24_host`) is not among the sources; the spec requires only that parsing
fails on malformed input and that the identifier grammar excludes `*`.
Validity is modelled as: nonempty and `*`-free. -/
def PortId.from_str (s : List Char) : Option PortId :=
  if s ≠ [] ∧ '*' ∉ s then some ⟨s⟩ else none

/-- Modelled from the spec: `ChannelId`, like `PortId`, is an external
validated string-backed identifier. -/
structure ChannelId where
  chars : List Char
deriving DecidableEq

/-- `AsRef<str>` for `ChannelId`: the canonical string form. -/
def ChannelId.as_ref (c : ChannelId) : List Char := c.chars

/-- Modelled from the spec: `ChannelId::from_str`, like `PortId::from_str`,
fails on malformed input, and the identifier grammar excludes `*`. -/
def ChannelId.from_str (s : List Char) : Option ChannelId :=
  if s ≠ [] ∧ '*' ∉ s then some ⟨s⟩ else none

/-- `FilterPattern<T>`: a single channel-filter entry. -/
inductive FilterPattern (T : Type) where
  | Exact : T → FilterPattern T
  | Wildcard : Wildcard → FilterPattern T
deriving DecidableEq

/-- `FilterPattern::is_wildcard`. -/
def FilterPattern.is_wildcard {T : Type} : FilterPattern T → Bool
  | FilterPattern.Wildcard _ => true
  | FilterPattern.Exact _ => false

/-- `FilterPattern::is_exact`. -/
def FilterPattern.is_exact {T : Type} : FilterPattern T → Bool
  | FilterPattern.Exact _ => true
  | FilterPattern.Wildcard _ => false

/-- `FilterPattern::matches`: strict equality for `Exact`, wildcard matching
on the canonical string (`AsRef<str>`) for `Wildcard`. -/
def FilterPattern.matches {T : Type} [BEq T] (asRef : T → List Char) :
    FilterPattern T → T → Bool
  | FilterPattern.Exact v, value => value == v
  | FilterPattern.Wildcard w, value => w.is_match (asRef value)

/-- `FilterPattern::exact_value`. -/
def FilterPattern.exact_value {T : Type} : FilterPattern T → Option T
  | FilterPattern.Exact value => some value
  | FilterPattern.Wildcard _ => none

/-- `type PortFilterMatch = FilterPattern<PortId>`. -/
abbrev PortFilterMatch := FilterPattern PortId

/-- `type ChannelFilterMatch = FilterPattern<ChannelId>`. -/
abbrev ChannelFilterMatch := FilterPattern ChannelId

/-- `ChannelFilters(Vec<(PortFilterMatch, ChannelFilterMatch)>)`. -/
structure ChannelFilters where
  pairs : List (PortFilterMatch × ChannelFilterMatch)
deriving DecidableEq

/-- `ChannelFilters::matches`: some pair matches both components. -/
def ChannelFilters.matches (cf : ChannelFilters) (channel_port : PortId × ChannelId) :
    Bool :=
  cf.pairs.any (fun pf =>
    FilterPattern.matches PortId.as_ref pf.1 channel_port.1 &&
    FilterPattern.matches ChannelId.as_ref pf.2 channel_port.2)

/-- `ChannelFilters::is_exact`: every pair's both components are `Exact`. -/
def ChannelFilters.is_exact (cf : ChannelFilters) : Bool :=
  cf.pairs.all (fun pf => pf.1.is_exact && pf.2.is_exact)

/-- `ChannelFilters::iter_exact`: the pairs whose components are both
`Exact` (the lazy iterator is modelled as the list it yields). -/
def ChannelFilters.iter_exact (cf : ChannelFilters) : List (PortId × ChannelId) :=
  cf.pairs.filterMap (fun port_chan_filter =>
    match port_chan_filter with
    | (FilterPattern.Exact port_id, FilterPattern.Exact chan_id) =>
      some (port_id, chan_id)
    | _ => none)

/-- `PacketFilter`: the top-level policy. -/
inductive PacketFilter where
  | Allow : ChannelFilters → PacketFilter
  | Deny : ChannelFilters → PacketFilter
  | AllowAll : PacketFilter
deriving DecidableEq

/-- `impl Default for PacketFilter`: by default, allow all channels & ports. -/
def PacketFilter.default : PacketFilter := PacketFilter.AllowAll

/-- `PacketFilter::is_allowed`. -/
def PacketFilter.is_allowed : PacketFilter → PortId → ChannelId → Bool
  | PacketFilter.Allow spec, port_id, channel_id => spec.matches (port_id, channel_id)
  | PacketFilter.Deny spec, port_id, channel_id => !spec.matches (port_id, channel_id)
  | PacketFilter.AllowAll, _, _ => true

/-- `port::PortFilterMatchVisitor::visit_str`: try the exact identifier
parse first; on failure compile a wildcard; surface the error otherwise. -/
def port.visit_str (v : List Char) : Except String PortFilterMatch :=
  match PortId.from_str v with
  | some port_id => Except.ok (FilterPattern.Exact port_id)
  | none =>
    match Wildcard.from_str v with
    | some w => Except.ok (FilterPattern.Wildcard w)
    | none => Except.error "invalid wildcard"

/-- `channel::ChannelFilterMatchVisitor::visit_str`. -/
def channel.visit_str (v : List Char) : Except String ChannelFilterMatch :=
  match ChannelId.from_str v with
  | some channel_id => Except.ok (FilterPattern.Exact channel_id)
  | none =>
    match Wildcard.from_str v with
    | some w => Except.ok (FilterPattern.Wildcard w)
    | none => Except.error "invalid wildcard"

/-- A value in the configuration record: the `policy` tag string, or the
`list` array of two-element string arrays. -/
inductive ConfigValue where
  | str : String → ConfigValue
  | rows : List (List Char × List Char) → ConfigValue
deriving DecidableEq

/-- The keys the `PacketFilter` record recognizes. -/
def recognizedKeys : List String := ["policy", "list"]

/-- First value bound to a key in the record. -/
def lookupField (k : String) : List (String × ConfigValue) → Option ConfigValue
  | [] => none
  | kv :: rest => if kv.1 = k then some kv.2 else lookupField k rest

/-- One row of the `list` field, parsed with the two visitors. -/
def parseRow (row : List Char × List Char) :
    Except String (PortFilterMatch × ChannelFilterMatch) := do
  let p ← port.visit_str row.1
  let c ← channel.visit_str row.2
  pure (p, c)

/-- The whole `list` field; any malformed row fails the whole parse. -/
def parseRows (rows : List (List Char × List Char)) : Except String ChannelFilters :=
  (rows.mapM parseRow).map ChannelFilters.mk

/-- Modelled from the spec: the configuration deserializer is generated by
serde from the attributes on `PacketFilter`
(`rename_all = "lowercase"`, `tag = "policy"`, `content = "list"`,
`deny_unknown_fields`); the generated code is not among the sources.  Per
the spec the record holds a `policy` tag and a `list` of string pairs, and
any unrecognized key fails the whole parse before any value is produced. -/
def deserializePacketFilter (record : List (String × ConfigValue)) :
    Except String PacketFilter :=
  if record.any (fun kv => !recognizedKeys.contains kv.1) then
    Except.error "unknown field"
  else
    match lookupField "policy" record with
    | some (ConfigValue.str p) =>
      if p = "allow" then
        match lookupField "list" record with
        | some (ConfigValue.rows rs) => (parseRows rs).map PacketFilter.Allow
        | _ => Except.error "missing list"
      else if p = "deny" then
        match lookupField "list" record with
        | some (ConfigValue.rows rs) => (parseRows rs).map PacketFilter.Deny
        | _ => Except.error "missing list"
      else if p = "allowall" then Except.ok PacketFilter.AllowAll
      else Except.error "unknown variant"
    | _ => Except.error "missing policy tag"

/-!  ## Theorems  -/

/-- **C1.**  The claim says wildcard matching is anchored to the whole
candidate string, so that the compiled pattern `ica*` rejects `xica` and
`foo-ica`, and a `*`-free pattern matches only its literal text.  Evaluating
the code at these inputs shows the opposite: `Wildcard::from_str` builds the
regex `ica(?:.*)` with no anchors and `Regex::is_match` searches anywhere in
the text, so `xica` and `foo-ica` are accepted too, and the `*`-free pattern
`ab` accepts `xaby`. -/
theorem wildcard_match_is_unanchored :
    ((Wildcard.from_str icaStarPat).map (fun w =>
        (w.is_match ['i', 'c', 'a'], w.is_match ['i', 'c', 'a', '0'],
         w.is_match ['i', 'c', 'a', 'f', 'o', 'o'],
         w.is_match ['x', 'i', 'c', 'a'],
         w.is_match ['f', 'o', 'o', '-', 'i', 'c', 'a'])) =
      some (true, true, true, true, true)) ∧
    ((Wildcard.from_str ['a', 'b']).map (fun w => w.is_match ['x', 'a', 'b', 'y'])) =
      some true := by
  decide

/-- **C2 (counterexample).**  For the wildcard compiled from `a-*`,
`Display` renders the escaped-regex form `a\-*` (the escaped `-` is not
restored to its literal form), and compiling the rendered string yields a
matcher that disagrees with the original on the text `a-`: the round-trip
is not behaviorally identical. -/
theorem wildcard_roundtrip_fails_on_hyphen :
    ((Wildcard.from_str ['a', '-', '*']).bind (fun w =>
        (Wildcard.from_str w.render).map (fun w2 =>
          (w.render, w.is_match ['a', '-'], w2.is_match ['a', '-'])))) =
      some (['a', '\\', '-', '*'], true, false) := by
  decide

/-- **C3.**  Complement law: for every list `L`, port `p` and channel `c`,
`PacketFilter::Deny(L).is_allowed(p, c)` is the boolean negation of
`PacketFilter::Allow(L).is_allowed(p, c)`. -/
theorem packet_filter_complement (L : ChannelFilters) (p : PortId) (c : ChannelId) :
    (PacketFilter.Deny L).is_allowed p c = !(PacketFilter.Allow L).is_allowed p c :=
  rfl

/-- **C4.**  Fail-open default: `PacketFilter::default()` is `AllowAll`,
and it allows every port/channel pair. -/
theorem packet_filter_default_allows_all :
    PacketFilter.default = PacketFilter.AllowAll ∧
    ∀ (p : PortId) (c : ChannelId), PacketFilter.default.is_allowed p c = true :=
  ⟨rfl, fun _ _ => rfl⟩

/-- **C9.**  For the empty `ChannelFilters` list, `is_exact` is (vacuously)
true, yet the list matches no port/channel pair and `iter_exact` yields
nothing: an exact classification does not imply the policy names any
channel. -/
theorem empty_filters_exact_but_match_nothing :
    (ChannelFilters.mk []).is_exact = true ∧
    (∀ (p : PortId) (c : ChannelId), (ChannelFilters.mk []).matches (p, c) = false) ∧
    (ChannelFilters.mk []).iter_exact = [] :=
  ⟨rfl, fun _ _ => rfl, rfl⟩

/-- **C5.**  `ChannelFilters::matches(port, channel)` is true iff some pair
`(pp, cp)` of the list satisfies `pp.matches(port)` and `cp.matches(channel)`
(OR across pairs, AND within a pair); the empty list matches nothing. -/
theorem channel_filters_matches_iff (L : ChannelFilters) (p : PortId) (c : ChannelId) :
    (L.matches (p, c) = true ↔
      ∃ pf ∈ L.pairs,
        FilterPattern.matches PortId.as_ref pf.1 p = true ∧
        FilterPattern.matches ChannelId.as_ref pf.2 c = true) ∧
    (ChannelFilters.mk []).matches (p, c) = false := by
  refine ⟨?_, rfl⟩
  simp [ChannelFilters.matches, List.any_eq_true, Bool.and_eq_true]

/-- **C7.**  Exactness law: `is_exact()` is true iff `iter_exact()` yields
as many pairs as the list holds, and `iter_exact()` yields exactly the
pairs whose two components are both `Exact`. -/
theorem channel_filters_exactness_law (L : ChannelFilters) :
    (L.is_exact = true ↔ L.iter_exact.length = L.pairs.length) ∧
    ∀ (p : PortId) (c : ChannelId),
      (p, c) ∈ L.iter_exact ↔
        (FilterPattern.Exact p, FilterPattern.Exact c) ∈ L.pairs := by
  obtain ⟨l⟩ := L
  constructor
  · show (ChannelFilters.mk l).is_exact = true ↔ _
    induction l with
    | nil => simp [ChannelFilters.is_exact, ChannelFilters.iter_exact]
    | cons hd tl ih =>
      obtain ⟨a, b⟩ := hd
      have hlen : ((ChannelFilters.mk tl).iter_exact).length ≤ tl.length :=
        List.length_filterMap_le _ tl
      cases a <;> cases b <;>
        simp_all [ChannelFilters.is_exact, ChannelFilters.iter_exact,
          FilterPattern.is_exact, List.filterMap_cons] <;>
        omega
  · intro p c
    simp only [ChannelFilters.iter_exact, List.mem_filterMap]
    constructor
    · rintro ⟨⟨a, b⟩, hmem, hf⟩
      cases a <;> cases b <;> simp_all
    · intro hmem
      exact ⟨(FilterPattern.Exact p, FilterPattern.Exact c), hmem, rfl⟩

/-- **C10.**  `iter_exact()` yields the fully-exact pairs in the same
relative order in which they occur in the underlying list: re-wrapping the
yielded identifiers in `Exact` gives exactly the sublist of fully-exact
entries, order preserved. -/
theorem iter_exact_preserves_order (L : ChannelFilters) :
    L.iter_exact.map (fun pc => (FilterPattern.Exact pc.1, FilterPattern.Exact pc.2)) =
      L.pairs.filter (fun pf => pf.1.is_exact && pf.2.is_exact) := by
  obtain ⟨l⟩ := L
  show (ChannelFilters.mk l).iter_exact.map _ = _
  induction l with
  | nil => rfl
  | cons hd tl ih =>
    obtain ⟨a, b⟩ := hd
    cases a <;> cases b <;>
      simp_all [ChannelFilters.iter_exact, FilterPattern.is_exact,
        List.filterMap_cons, List.filter_cons]

/-- **C6.**  Pattern parsing tries the exact identifier parse first: a
string that parses as a valid identifier becomes `Exact`; only on
identifier-parse failure is wildcard compilation attempted, yielding
`Wildcard` on success; if both fail the visitor returns an error (it never
drops the entry).  Both the port and the channel visitor obey this. -/
theorem filter_pattern_tries_exact_first (s : List Char) :
    (∀ t, PortId.from_str s = some t →
      port.visit_str s = Except.ok (FilterPattern.Exact t)) ∧
    (PortId.from_str s = none →
      ∀ w, Wildcard.from_str s = some w →
        port.visit_str s = Except.ok (FilterPattern.Wildcard w)) ∧
    (PortId.from_str s = none → Wildcard.from_str s = none →
      port.visit_str s = Except.error "invalid wildcard") ∧
    (∀ t, ChannelId.from_str s = some t →
      channel.visit_str s = Except.ok (FilterPattern.Exact t)) ∧
    (ChannelId.from_str s = none →
      ∀ w, Wildcard.from_str s = some w →
        channel.visit_str s = Except.ok (FilterPattern.Wildcard w)) ∧
    (ChannelId.from_str s = none → Wildcard.from_str s = none →
      channel.visit_str s = Except.error "invalid wildcard") := by
  refine ⟨?_, ?_, ?_, ?_, ?_, ?_⟩ <;>
    · intros
      simp_all [port.visit_str, channel.visit_str]

/-- The identifier string `transfer`. -/
def transferPat : List Char := ['t', 'r', 'a', 'n', 's', 'f', 'e', 'r']

/-- Witness for **C6**: `transfer` parses as an exact port identifier, and
`*` (no valid identifier) compiles to the match-all wildcard. -/
theorem filter_pattern_tries_exact_first_witness :
    port.visit_str transferPat = Except.ok (FilterPattern.Exact ⟨transferPat⟩) ∧
    channel.visit_str ['*'] =
      Except.ok (FilterPattern.Wildcard ⟨anyGroup, [GTok.star]⟩) :=
  ⟨(filter_pattern_tries_exact_first transferPat).1 ⟨transferPat⟩ (by decide),
   (filter_pattern_tries_exact_first ['*']).2.2.2.2.1 (by decide)
     ⟨anyGroup, [GTok.star]⟩ (by decide)⟩

/-- **C8.**  Strict schema: a configuration record holding any key other
than `policy` and `list` fails the whole parse with an error; no unknown
key is ignored and no partial filter value is produced. -/
theorem unknown_key_fails_whole_parse (record : List (String × ConfigValue))
    (h : ∃ kv ∈ record, kv.1 ∉ recognizedKeys) :
    deserializePacketFilter record = Except.error "unknown field" := by
  have hany : record.any (fun kv => !recognizedKeys.contains kv.1) = true := by
    obtain ⟨kv, hmem, hk⟩ := h
    exact List.any_eq_true.mpr ⟨kv, hmem, by simpa using hk⟩
  simp only [deserializePacketFilter]
  rw [if_pos hany]

/-- Witness for **C8**: a record with the extra key `foo` is rejected. -/
theorem unknown_key_fails_whole_parse_witness :
    deserializePacketFilter
        [("policy", ConfigValue.str "allow"), ("foo", ConfigValue.str "bar")] =
      Except.error "unknown field" :=
  unknown_key_fails_whole_parse _ ⟨("foo", ConfigValue.str "bar"), by decide, by decide⟩

/-!  ### Round-trip of compilation and rendering for meta-free patterns

For a pattern string whose characters are `*` or non-meta characters, the
escaped source, the regex source and the rendered string all decompose
character by character; the lemmas below follow that decomposition. -/

/-- What `regex::escape` emits for one pattern character of a meta-free
pattern. -/
def escTok (c : Char) : List Char := if c = '*' then escapedStar else [c]

/-- What the compiled regex source holds for one pattern character of a
meta-free pattern. -/
def srcTok (c : Char) : List Char := if c = '*' then anyGroup else [c]

/-- The compiled token for one pattern character. -/
def gtokOf (c : Char) : GTok := if c = '*' then GTok.star else GTok.lit c

/-- Concatenation of a per-character expansion. -/
def concatTok (f : Char → List Char) : List Char → List Char
  | [] => []
  | c :: cs => f c ++ concatTok f cs

theorem escape_star_only (s : List Char)
    (h : ∀ c ∈ s, c = '*' ∨ isMetaCharacter c = false) :
    rustRegexEscape s = concatTok escTok s := by
  induction s with
  | nil => rfl
  | cons c cs ih =>
    have hcs : ∀ x ∈ cs, x = '*' ∨ isMetaCharacter x = false :=
      fun x hx => h x (List.mem_cons_of_mem c hx)
    rcases h c (List.mem_cons_self c cs) with rfl | hne
    · simp [rustRegexEscape, concatTok, escTok, escapedStar, ih hcs,
        (by decide : isMetaCharacter '*' = true)]
    · have hstar : c ≠ '*' := by
        intro he
        rw [he] at hne
        exact (by decide : isMetaCharacter '*' ≠ false) hne
      simp [rustRegexEscape, concatTok, escTok, hne, hstar, ih hcs]

theorem replaceFromF_cons_pos (pat rep : List Char) (f : Nat) (c : Char)
    (cs : List Char) (hpre : pat.isPrefixOf (c :: cs) = true) :
    replaceFromF pat rep (f + 1) (c :: cs) =
      rep ++ replaceFromF pat rep f (List.drop (pat.length - 1) cs) := by
  simp [replaceFromF, hpre]

theorem replaceFromF_cons_neg (pat rep : List Char) (f : Nat) (c : Char)
    (cs : List Char) (hpre : pat.isPrefixOf (c :: cs) = false) :
    replaceFromF pat rep (f + 1) (c :: cs) = c :: replaceFromF pat rep f cs := by
  simp [replaceFromF, hpre]

theorem replace_escaped_star (s : List Char)
    (h : ∀ c ∈ s, c = '*' ∨ isMetaCharacter c = false) :
    ∀ f, (concatTok escTok s).length ≤ f →
      replaceFromF escapedStar anyGroup f (concatTok escTok s) = concatTok srcTok s := by
  induction s with
  | nil =>
    intro f _
    cases f <;> rfl
  | cons c cs ih =>
    intro f hf
    have hcs : ∀ x ∈ cs, x = '*' ∨ isMetaCharacter x = false :=
      fun x hx => h x (List.mem_cons_of_mem c hx)
    rcases h c (List.mem_cons_self c cs) with rfl | hne
    · have hexp : concatTok escTok ('*' :: cs) = '\\' :: '*' :: concatTok escTok cs := rfl
      rw [hexp] at hf ⊢
      match f, hf with
      | f' + 1, hf =>
        have hpre : escapedStar.isPrefixOf ('\\' :: '*' :: concatTok escTok cs) = true := by
          simp [escapedStar, List.isPrefixOf]
        have hbound : (concatTok escTok cs).length ≤ f' := by
          simp only [List.length_cons] at hf
          omega
        rw [replaceFromF_cons_pos _ _ _ _ _ hpre,
          show List.drop (escapedStar.length - 1) ('*' :: concatTok escTok cs) =
            concatTok escTok cs from rfl,
          ih hcs f' hbound]
        rfl
    · have hstar : c ≠ '*' := by
        intro he
        rw [he] at hne
        exact (by decide : isMetaCharacter '*' ≠ false) hne
      have hbs : c ≠ '\\' := by
        intro he
        rw [he] at hne
        exact (by decide : isMetaCharacter '\\' ≠ false) hne
      have hexp : concatTok escTok (c :: cs) = c :: concatTok escTok cs := by
        simp [concatTok, escTok, hstar]
      rw [hexp] at hf ⊢
      match f, hf with
      | f' + 1, hf =>
        have hpre : escapedStar.isPrefixOf (c :: concatTok escTok cs) = false := by
          simp [escapedStar, List.isPrefixOf, beq_eq_false_iff_ne, Ne.symm hbs]
        have hbound : (concatTok escTok cs).length ≤ f' := by
          simp only [List.length_cons] at hf
          omega
        rw [replaceFromF_cons_neg _ _ _ _ _ hpre, ih hcs f' hbound]
        simp [concatTok, srcTok, hstar]

theorem parseRegex_cons_plain (c : Char) (cs : List Char)
    (hpar : c ≠ '(') (hbs : c ≠ '\\') (hne : isMetaCharacter c = false) :
    parseRegex (c :: cs) = (parseRegex cs).map (GTok.lit c :: ·) := by
  rw [parseRegex.eq_def]
  simp only [if_neg hpar, if_neg hbs, hne, Bool.false_eq_true, if_false]

theorem parseRegex_cons_group (cs : List Char) :
    parseRegex ('(' :: '?' :: ':' :: '.' :: '*' :: ')' :: cs) =
      (parseRegex cs).map (GTok.star :: ·) := by
  rw [parseRegex.eq_def]
  rfl

theorem parse_src_of_meta_free (s : List Char)
    (h : ∀ c ∈ s, c = '*' ∨ isMetaCharacter c = false) :
    parseRegex (concatTok srcTok s) = some (s.map gtokOf) := by
  induction s with
  | nil => rfl
  | cons c cs ih =>
    have hcs : ∀ x ∈ cs, x = '*' ∨ isMetaCharacter x = false :=
      fun x hx => h x (List.mem_cons_of_mem c hx)
    rcases h c (List.mem_cons_self c cs) with rfl | hne
    · have hexp : concatTok srcTok ('*' :: cs) =
          '(' :: '?' :: ':' :: '.' :: '*' :: ')' :: concatTok srcTok cs := rfl
      rw [hexp, parseRegex_cons_group, ih hcs]
      rfl
    · have hstar : c ≠ '*' := by
        intro he
        rw [he] at hne
        exact (by decide : isMetaCharacter '*' ≠ false) hne
      have hpar : c ≠ '(' := by
        intro he
        rw [he] at hne
        exact (by decide : isMetaCharacter '(' ≠ false) hne
      have hbs : c ≠ '\\' := by
        intro he
        rw [he] at hne
        exact (by decide : isMetaCharacter '\\' ≠ false) hne
      have hexp : concatTok srcTok (c :: cs) = c :: concatTok srcTok cs := by
        simp [concatTok, srcTok, hstar]
      rw [hexp, parseRegex_cons_plain c _ hpar hbs hne, ih hcs]
      simp [gtokOf, hstar]

theorem render_src_of_meta_free (s : List Char)
    (h : ∀ c ∈ s, c = '*' ∨ isMetaCharacter c = false) :
    ∀ f, (concatTok srcTok s).length ≤ f →
      replaceFromF anyGroup ['*'] f (concatTok srcTok s) = s := by
  induction s with
  | nil =>
    intro f _
    cases f <;> rfl
  | cons c cs ih =>
    intro f hf
    have hcs : ∀ x ∈ cs, x = '*' ∨ isMetaCharacter x = false :=
      fun x hx => h x (List.mem_cons_of_mem c hx)
    rcases h c (List.mem_cons_self c cs) with rfl | hne
    · have hexp : concatTok srcTok ('*' :: cs) =
          '(' :: '?' :: ':' :: '.' :: '*' :: ')' :: concatTok srcTok cs := rfl
      rw [hexp] at hf ⊢
      match f, hf with
      | f' + 1, hf =>
        have hpre : anyGroup.isPrefixOf
            ('(' :: '?' :: ':' :: '.' :: '*' :: ')' :: concatTok srcTok cs) = true := by
          simp [anyGroup, List.isPrefixOf]
        have hbound : (concatTok srcTok cs).length ≤ f' := by
          simp only [List.length_cons] at hf
          omega
        rw [replaceFromF_cons_pos _ _ _ _ _ hpre,
          show List.drop (anyGroup.length - 1)
              ('?' :: ':' :: '.' :: '*' :: ')' :: concatTok srcTok cs) =
            concatTok srcTok cs from rfl,
          ih hcs f' hbound]
        rfl
    · have hstar : c ≠ '*' := by
        intro he
        rw [he] at hne
        exact (by decide : isMetaCharacter '*' ≠ false) hne
      have hpar : c ≠ '(' := by
        intro he
        rw [he] at hne
        exact (by decide : isMetaCharacter '(' ≠ false) hne
      have hexp : concatTok srcTok (c :: cs) = c :: concatTok srcTok cs := by
        simp [concatTok, srcTok, hstar]
      rw [hexp] at hf ⊢
      match f, hf with
      | f' + 1, hf =>
        have hpre : anyGroup.isPrefixOf (c :: concatTok srcTok cs) = false := by
          simp [anyGroup, List.isPrefixOf, beq_eq_false_iff_ne, Ne.symm hpar]
        have hbound : (concatTok srcTok cs).length ≤ f' := by
          simp only [List.length_cons] at hf
          omega
        rw [replaceFromF_cons_neg _ _ _ _ _ hpre, ih hcs f' hbound]

/-- **C2 (amended).**  For every pattern string made of `*` and non-meta
characters (in particular any identifier text plus `*` wildcards),
compilation succeeds, rendering restores exactly the original pattern (the
`*` reappears and no escaped-regex form is emitted), and compiling the
rendered string yields the very same matcher, so it accepts exactly the
same strings.  For patterns containing other regex meta-characters such as
`-` or `.`, rendering emits the escaped form and the round-trip can change
the matched set (see the counterexample). -/
theorem wildcard_render_roundtrip_meta_free (s : List Char)
    (h : ∀ c ∈ s, c = '*' ∨ isMetaCharacter c = false) :
    (Wildcard.from_str s).map Wildcard.render = some s ∧
    ((Wildcard.from_str s).bind fun w => Wildcard.from_str w.render) =
      Wildcard.from_str s ∧
    Wildcard.from_str s ≠ none := by
  have hsrc : replaceList escapedStar anyGroup (rustRegexEscape s) =
      concatTok srcTok s := by
    rw [escape_star_only s h]
    exact replace_escaped_star s h _ le_rfl
  have hfs : Wildcard.from_str s = some ⟨concatTok srcTok s, s.map gtokOf⟩ := by
    simp only [Wildcard.from_str, hsrc, parse_src_of_meta_free s h, Option.map_some']
  have hrender : Wildcard.render ⟨concatTok srcTok s, s.map gtokOf⟩ = s := by
    simp only [Wildcard.render, replaceList]
    exact render_src_of_meta_free s h _ le_rfl
  refine ⟨?_, ?_, ?_⟩
  · rw [hfs, Option.map_some', hrender]
  · rw [hfs]
    show Wildcard.from_str
        (Wildcard.render ⟨concatTok srcTok s, s.map gtokOf⟩) = _
    rw [hrender, hfs]
  · rw [hfs]
    exact Option.some_ne_none _

/-- Witness for **C2 (amended)** at the pattern `ica*`. -/
theorem wildcard_render_roundtrip_meta_free_witness :
    (Wildcard.from_str icaStarPat).map Wildcard.render = some icaStarPat ∧
    ((Wildcard.from_str icaStarPat).bind fun w => Wildcard.from_str w.render) =
      Wildcard.from_str icaStarPat ∧
    Wildcard.from_str icaStarPat ≠ none :=
  wildcard_render_roundtrip_meta_free icaStarPat (by decide)

end PacketFilterSpec
